import Mathlib

/-!
Verification of the Synapse core (task entity, JSONL durable store, SQLite
query cache) against its natural-language specification.

The Go sources are shallowly embedded:

* `time.Time` / `time.Duration` are modelled as `Int` (nanoseconds since the
  epoch, exactly the representation `time.Duration` and `time.Time.Sub` use);
  every method that calls `time.Now()` takes the current instant `now` as an
  explicit argument.
* `*time.Time` becomes `Option Int`, Go `nil` being `none`.
* `map[int]*types.Synapse` becomes a list of tasks keyed by their `id` field;
  the store invariant (exactly one live copy of each id) is the `Nodup`
  hypothesis of the theorems that need it.
* Fallible methods return `Except String`.
* SQLite tables become lists of row records.  The connection opened by
  `SQLiteCache.Init` never executes `PRAGMA foreign_keys = on` (neither in the
  DSN nor as a statement), and SQLite leaves foreign-key enforcement off by
  default, so foreign-key clauses — including `ON DELETE CASCADE` — are parsed
  but not enforced; the repository's own test suite depends on this (it
  inserts blocker edges whose blocker ids match no synapse row and expects
  success).  The relational model therefore enforces the declared PRIMARY KEY
  constraints but no foreign-key actions.
-/

/-- Status of a task, `pkg/types/synapse.go`.  The Go type is a string; this
inductive covers exactly the five valid values, mirroring `ValidStatuses`. -/
inductive Status where
  | open_
  | inProgress
  | blocked
  | review
  | done
deriving DecidableEq

/-- Rendering of a status as the Go string constant, used where the SQLite
cache stores `string(syn.Status)` in a TEXT column. -/
def Status.toGoString : Status → String
  | .open_ => "open"
  | .inProgress => "in-progress"
  | .blocked => "blocked"
  | .review => "review"
  | .done => "done"

/-- The task entity, struct `Synapse` of `pkg/types/synapse.go`. -/
structure Synapse where
  id : Int
  title : String
  description : String := ""
  status : Status
  priority : Int := 0
  blockedBy : List Int := []
  parentID : Int := 0
  assignee : String := ""
  discoveredFrom : String := ""
  labels : List String := []
  notes : List String := []
  claimedBy : String := ""
  claimedAt : Option Int := none
  completedBy : String := ""
  createdAt : Int := 0
  updatedAt : Int := 0
deriving DecidableEq

/-- `NewSynapse` of `pkg/types/synapse.go`: fresh task with the given id and
title, status `open`, empty `blocked_by`, both timestamps `now`. -/
def newSynapse (id : Int) (title : String) (now : Int) : Synapse :=
  { id := id, title := title, status := Status.open_, blockedBy := []
    createdAt := now, updatedAt := now }

/-- `Synapse.IsReady`: false when the status is in-progress, review or done,
otherwise true iff every id in `blocked_by` satisfies the predicate. -/
def Synapse.isReady (s : Synapse) (isBlockerDone : Int → Bool) : Bool :=
  if s.status = Status.inProgress ∨ s.status = Status.review ∨ s.status = Status.done then
    false
  else
    s.blockedBy.all (fun blockerID => isBlockerDone blockerID)

/-- `Synapse.MarkInProgress`. -/
def Synapse.markInProgress (s : Synapse) (now : Int) : Synapse :=
  { s with status := Status.inProgress, updatedAt := now }

/-- Guard of `Synapse.Claim`: the task is claimed by a different agent and the
claim is still active.  In the Go code this is the nested condition
`s.ClaimedBy != "" && s.ClaimedBy != agentID && s.ClaimedAt != nil` together
with `now.Sub(*s.ClaimedAt) < timeout`. -/
def Synapse.activeForeignClaim (s : Synapse) (agentID : String) (timeout now : Int) : Bool :=
  s.claimedBy ≠ "" && s.claimedBy ≠ agentID &&
    (match s.claimedAt with
     | some t => decide (now - t < timeout)
     | none => false)

/-- `Synapse.Claim`: returns the Go boolean result together with the task
after the call (the Go method mutates the receiver in place). -/
def Synapse.claim (s : Synapse) (agentID : String) (timeout now : Int) : Bool × Synapse :=
  if s.status = Status.done then
    (false, s)
  else if s.activeForeignClaim agentID timeout now then
    (false, s)
  else
    (true, { s with claimedBy := agentID, claimedAt := some now
                    status := Status.inProgress, updatedAt := now })

/-- `Synapse.ReleaseClaim`: clears the claim fields, reverts in-progress to
open, stamps `updated_at`. -/
def Synapse.releaseClaim (s : Synapse) (now : Int) : Synapse :=
  { s with claimedBy := "", claimedAt := none
           status := if s.status = Status.inProgress then Status.open_ else s.status
           updatedAt := now }

/-- `Synapse.IsClaimExpired`. -/
def Synapse.isClaimExpired (s : Synapse) (timeout now : Int) : Bool :=
  match s.claimedAt with
  | none => true
  | some t => decide (now - t ≥ timeout)

/-- `Synapse.MarkDone`. -/
def Synapse.markDone (s : Synapse) (now : Int) : Synapse :=
  { s with status := Status.done, updatedAt := now }

/-- `Synapse.MarkDoneBy`. -/
def Synapse.markDoneBy (s : Synapse) (agentID : String) (now : Int) : Synapse :=
  { s with status := Status.done, completedBy := agentID, updatedAt := now }

/-- `Synapse.MarkBlocked`. -/
def Synapse.markBlocked (s : Synapse) (now : Int) : Synapse :=
  { s with status := Status.blocked, updatedAt := now }

/-- `Synapse.AddBlocker`: no-op when the id is already present, otherwise
appends it and stamps `updated_at`. -/
def Synapse.addBlocker (s : Synapse) (blockerID : Int) (now : Int) : Synapse :=
  if s.blockedBy.contains blockerID then
    s
  else
    { s with blockedBy := s.blockedBy ++ [blockerID], updatedAt := now }

/-- Removal of the first occurrence of `b`, or `none` when absent: the loop of
`Synapse.RemoveBlocker`. -/
def removeFirst : List Int → Int → Option (List Int)
  | [], _ => none
  | x :: xs, b => if x = b then some xs else (removeFirst xs b).map (fun r => x :: r)

/-- `Synapse.RemoveBlocker`: removes the first occurrence and stamps
`updated_at`; silent no-op when the id is absent. -/
def Synapse.removeBlocker (s : Synapse) (blockerID : Int) (now : Int) : Synapse :=
  match removeFirst s.blockedBy blockerID with
  | some rest => { s with blockedBy := rest, updatedAt := now }
  | none => s

/-- `Synapse.AddNote`. -/
def Synapse.addNote (s : Synapse) (note : String) (now : Int) : Synapse :=
  { s with notes := s.notes ++ [note], updatedAt := now }

/-!
The JSONL durable store, `internal/storage/jsonl.go`.  The `map[int]*Synapse`
is modelled as a list of tasks keyed by their `id` field; map update is
replacement of the matching entry (or append when the key is fresh).
-/

/-- State of a `JSONLStore`: the in-memory map and the next-id counter.
`NewJSONLStore` starts with an empty map and `nextID = 1`. -/
structure JSONLStore where
  synapses : List Synapse
  nextID : Int
deriving DecidableEq

/-- The store produced by `NewJSONLStore`. -/
def JSONLStore.initial : JSONLStore :=
  { synapses := [], nextID := 1 }

/-- Assignment `s.synapses[syn.ID] = syn` on the list model: replace the entry
with the same id, or append when no entry has it. -/
def mapInsert (m : List Synapse) (syn : Synapse) : List Synapse :=
  if m.any (fun t => t.id = syn.id) then
    m.map (fun t => if t.id = syn.id then syn else t)
  else
    m ++ [syn]

/-- Lookup `s.synapses[id]` on the list model. -/
def mapFind (m : List Synapse) (id : Int) : Option Synapse :=
  m.find? (fun t => t.id = id)

/-- `JSONLStore.Create`: builds `NewSynapse(s.nextID, title)`, stores it and
advances the counter.  The Go method has no failure path — it returns a nil
error unconditionally, for the empty title as well. -/
def JSONLStore.create (st : JSONLStore) (title : String) (now : Int) :
    Synapse × JSONLStore :=
  let syn := newSynapse st.nextID title now
  (syn, { synapses := mapInsert st.synapses syn, nextID := st.nextID + 1 })

/-- `JSONLStore.Get`. -/
def JSONLStore.get (st : JSONLStore) (id : Int) : Except String Synapse :=
  match mapFind st.synapses id with
  | some syn => Except.ok syn
  | none => Except.error "not found"

/-- `JSONLStore.Update`. -/
def JSONLStore.update (st : JSONLStore) (syn : Synapse) : Except String JSONLStore :=
  if st.synapses.any (fun t => t.id = syn.id) then
    Except.ok { st with synapses := mapInsert st.synapses syn }
  else
    Except.error "not found"

/-- `JSONLStore.Delete`: removes the entry, `NotFound` when absent.  The
next-id counter is untouched. -/
def JSONLStore.delete (st : JSONLStore) (id : Int) : Except String JSONLStore :=
  if st.synapses.any (fun t => t.id = id) then
    Except.ok { st with synapses := st.synapses.filter (fun t => ¬ t.id = id) }
  else
    Except.error "not found"

/-- Blocker-satisfaction predicate of `JSONLStore.Ready`: the blocker id maps
to a task whose status is done; a dangling id yields false. -/
def JSONLStore.isDone (st : JSONLStore) (id : Int) : Bool :=
  match mapFind st.synapses id with
  | some syn => syn.status = Status.done
  | none => false

/-- Ids returned by `JSONLStore.Ready()`.  The Go method sorts the result by
descending priority; the claims about it compare id sets, so the model keeps
map order and the theorems quantify over membership. -/
def JSONLStore.readyIDs (st : JSONLStore) : List Int :=
  (st.synapses.filter (fun syn => syn.isReady st.isDone)).map (fun syn => syn.id)

/-!
Serialization: `Save` writes one JSON object per task, sorted by ascending
id; `Load` replaces the in-memory map by decoding the file line by line.  A
`Line` is the JSON object of one line: every field carrying a Go `omitempty`
tag becomes an `Option`, absent when the value is the zero value, and
`json.Unmarshal` into a zero-valued struct realizes `Option.getD`.
-/

/-- One encoded JSONL line. -/
structure Line where
  id : Int
  title : String
  description : Option String
  status : Status
  priority : Option Int
  blockedBy : Option (List Int)
  parentID : Option Int
  assignee : Option String
  discoveredFrom : Option String
  labels : Option (List String)
  notes : Option (List String)
  claimedBy : Option String
  claimedAt : Option Int
  completedBy : Option String
  createdAt : Int
  updatedAt : Int
deriving DecidableEq

/-- Emission of an `omitempty` string field. -/
def omitString (s : String) : Option String :=
  if s = "" then none else some s

/-- Emission of an `omitempty` int field. -/
def omitInt (n : Int) : Option Int :=
  if n = 0 then none else some n

/-- Emission of an `omitempty` slice field. -/
def omitList {α : Type} (l : List α) : Option (List α) :=
  if l.isEmpty then none else some l

/-- `json.Marshal` of a task as performed by `Save`. -/
def encodeLine (s : Synapse) : Line :=
  { id := s.id, title := s.title, description := omitString s.description
    status := s.status, priority := omitInt s.priority
    blockedBy := omitList s.blockedBy, parentID := omitInt s.parentID
    assignee := omitString s.assignee, discoveredFrom := omitString s.discoveredFrom
    labels := omitList s.labels, notes := omitList s.notes
    claimedBy := omitString s.claimedBy, claimedAt := s.claimedAt
    completedBy := omitString s.completedBy
    createdAt := s.createdAt, updatedAt := s.updatedAt }

/-- `json.Unmarshal` of one line into a zero-valued `types.Synapse`. -/
def decodeLine (l : Line) : Synapse :=
  { id := l.id, title := l.title, description := l.description.getD ""
    status := l.status, priority := l.priority.getD 0
    blockedBy := l.blockedBy.getD [], parentID := l.parentID.getD 0
    assignee := l.assignee.getD "", discoveredFrom := l.discoveredFrom.getD ""
    labels := l.labels.getD [], notes := l.notes.getD []
    claimedBy := l.claimedBy.getD "", claimedAt := l.claimedAt
    completedBy := l.completedBy.getD ""
    createdAt := l.createdAt, updatedAt := l.updatedAt }

/-- `JSONLStore.Save`: the sequence of lines written to the durable file,
sorted by ascending id. -/
def JSONLStore.save (st : JSONLStore) : List Line :=
  (st.synapses.insertionSort (fun a b => a.id ≤ b.id)).map encodeLine

/-- Body of the `Load` loop for one decoded line: store the task and advance
the next-id watermark when the id reaches it. -/
def loadLine (st : JSONLStore) (l : Line) : JSONLStore :=
  let syn := decodeLine l
  { synapses := mapInsert st.synapses syn
    nextID := if syn.id ≥ st.nextID then syn.id + 1 else st.nextID }

/-- `JSONLStore.Load` on a file in which every line decodes: the previous map
is discarded (`s.synapses = make(...)`, `s.nextID = 1`) and the lines are
folded in order. -/
def JSONLStore.load (_st : JSONLStore) (lines : List Line) : JSONLStore :=
  lines.foldl loadLine JSONLStore.initial

/-- One physical line of the durable file as `Load` sees it: empty, decodable,
or malformed (a JSON error). -/
inductive FileLine where
  | blank
  | good (l : Line)
  | malformed
deriving DecidableEq

/-- Scanner loop of `Load`, carrying the 1-based line counter; returns the
store state at exit together with the line number of the parse error, if
any.  Blank lines advance the counter but decode nothing. -/
def loadFileGo (acc : JSONLStore) : List FileLine → Nat → JSONLStore × Option Nat
  | [], _ => (acc, none)
  | FileLine.blank :: rest, n => loadFileGo acc rest (n + 1)
  | FileLine.good l :: rest, n => loadFileGo (loadLine acc l) rest (n + 1)
  | FileLine.malformed :: _, n => (acc, some n)

/-- `JSONLStore.Load` on an arbitrary file: resets the map and the counter,
then scans; a malformed line aborts with its line number, leaving whatever
the scan had already decoded. -/
def JSONLStore.loadFile (_st : JSONLStore) (file : List FileLine) :
    JSONLStore × Option Nat :=
  loadFileGo JSONLStore.initial file 1

/-!
The SQLite query cache, `internal/storage/sqlite.go`.  The schema of
`SQLiteCache.Init` declares a `synapses` table (primary key `id`) and a
`blockers` table (composite primary key, two foreign keys with
`ON DELETE CASCADE`).  Primary-key violations make an INSERT fail; the
foreign-key clauses are inert because the connection never enables the
`foreign_keys` pragma (see the header comment), so inserts of dangling edges
succeed and deletes do not cascade.
-/

/-- Row of the `synapses` table.  Nullable columns are `Option`; `status` is
the TEXT produced by `string(syn.Status)`. -/
structure SynRow where
  id : Int
  title : String
  description : Option String
  status : String
  parentID : Option Int
  assignee : Option String
  discoveredFrom : Option String
  createdAt : Int
  updatedAt : Int
deriving DecidableEq

/-- Row of the `blockers` table. -/
structure BlockerRow where
  synapseID : Int
  blockerID : Int
deriving DecidableEq

/-- Contents of the cache database after `Init`. -/
structure CacheDB where
  synapses : List SynRow
  blockers : List BlockerRow
deriving DecidableEq

/-- `nullString` of `sqlite.go`: empty string stored as NULL. -/
def nullString (s : String) : Option String :=
  if s = "" then none else some s

/-- `nullInt` of `sqlite.go`: zero stored as NULL. -/
def nullInt (n : Int) : Option Int :=
  if n = 0 then none else some n

/-- Row written for a task by `Rebuild` and `Insert`. -/
def synToRow (s : Synapse) : SynRow :=
  { id := s.id, title := s.title, description := nullString s.description
    status := s.status.toGoString, parentID := nullInt s.parentID
    assignee := nullString s.assignee, discoveredFrom := nullString s.discoveredFrom
    createdAt := s.createdAt, updatedAt := s.updatedAt }

/-- INSERT into `synapses`: fails on a primary-key violation. -/
def insertSynRow (db : CacheDB) (s : Synapse) : Except String CacheDB :=
  if db.synapses.any (fun r => r.id = s.id) then
    Except.error "UNIQUE constraint failed: synapses.id"
  else
    Except.ok { db with synapses := db.synapses ++ [synToRow s] }

/-- INSERTs into `blockers` for one task, in `blocked_by` order; each fails
on a composite primary-key violation (no foreign-key check — see header). -/
def insertEdges (db : CacheDB) (sid : Int) : List Int → Except String CacheDB
  | [] => Except.ok db
  | b :: rest =>
    if db.blockers.any (fun e => e.synapseID = sid ∧ e.blockerID = b) then
      Except.error "UNIQUE constraint failed: blockers"
    else
      insertEdges { db with blockers := db.blockers ++ [⟨sid, b⟩] } sid rest

/-- One iteration of the `Rebuild` loop: the task row, then its edges; the
first failure aborts. -/
def insertTask (db : CacheDB) (s : Synapse) : Except String CacheDB :=
  match insertSynRow db s with
  | Except.ok db1 => insertEdges db1 s.id s.blockedBy
  | Except.error e => Except.error e

/-- Tail of `Rebuild` after the two DELETEs: insert every task in order; the
first failure aborts. -/
def rebuildFrom (db : CacheDB) : List Synapse → Except String CacheDB
  | [] => Except.ok db
  | s :: rest =>
    match insertTask db s with
    | Except.ok db1 => rebuildFrom db1 rest
    | Except.error e => Except.error e

/-- `SQLiteCache.Rebuild`: transactionally clears both tables and reinserts
the given collection; any failure rolls the transaction back, so the result
is all-or-nothing. -/
def SQLiteCache.rebuild (tasks : List Synapse) : Except String CacheDB :=
  rebuildFrom { synapses := [], blockers := [] } tasks

/-- `SQLiteCache.Delete`: `DELETE FROM synapses WHERE id = ?`, `NotFound`
when no row was affected.  With foreign-key enforcement off the `blockers`
table is untouched. -/
def CacheDB.deleteSyn (db : CacheDB) (id : Int) : Except String CacheDB :=
  if db.synapses.any (fun r => r.id = id) then
    Except.ok { db with synapses := db.synapses.filter (fun r => ¬ r.id = id) }
  else
    Except.error "not found"

/-- WHERE clause of the `Ready()` query for row `s`: status 'open' or
'blocked', and no `blockers` row for `s` joins to a synapse row whose status
is not 'done'.  An edge whose `blocker_id` matches no synapse row is dropped
by the inner join and therefore does not block. -/
def CacheDB.rowReady (db : CacheDB) (s : SynRow) : Bool :=
  (s.status = "open" ∨ s.status = "blocked") &&
    ! db.blockers.any (fun b =>
        b.synapseID = s.id &&
          db.synapses.any (fun blocker =>
            blocker.id = b.blockerID && blocker.status ≠ "done"))

/-- Ids returned by `SQLiteCache.Ready()` (the query orders rows by id; the
claims compare id sets, so the model keeps table order and the theorems
quantify over membership). -/
def CacheDB.readyIDs (db : CacheDB) : List Int :=
  (db.synapses.filter (fun s => db.rowReady s)).map (fun s => s.id)

/-!
Theorems.
-/

/-- Blocker task of the readiness-boundary statement, with a choosable
status. -/
def bndBlocker (st : Status) : Synapse :=
  { id := 1, title := "X", status := st }

/-- Dependent task of the readiness-boundary statement: open, blocked by
task 1 only. -/
def bndTask : Synapse :=
  { id := 2, title := "Y", status := Status.open_, blockedBy := [1] }

/-- Two-task store for the readiness boundary. -/
def bndStore (st : Status) : JSONLStore :=
  { synapses := [bndBlocker st, bndTask], nextID := 3 }

/-- Helper: propositional characterization of `IsReady`. -/
theorem isReady_eq_true_iff (s : Synapse) (p : Int → Bool) :
    s.isReady p = true ↔
      (s.status ≠ Status.inProgress ∧ s.status ≠ Status.review ∧
        s.status ≠ Status.done ∧ ∀ b ∈ s.blockedBy, p b = true) := by
  by_cases hc : s.status = Status.inProgress ∨ s.status = Status.review ∨
      s.status = Status.done
  · simp only [Synapse.isReady, if_pos hc]
    constructor
    · intro h; exact absurd h (by simp)
    · rintro ⟨h1, h2, h3, _⟩
      rcases hc with h | h | h
      · exact absurd h h1
      · exact absurd h h2
      · exact absurd h h3
  · push_neg at hc
    have hcor : ¬ (s.status = Status.inProgress ∨ s.status = Status.review ∨
        s.status = Status.done) := by tauto
    simp only [Synapse.isReady, if_neg hcor, List.all_eq_true]
    exact ⟨fun h => ⟨hc.1, hc.2.1, hc.2.2, h⟩, fun h => h.2.2.2⟩

/-- Claim C5: `IsReady` returns true iff the status is none of in-progress,
review, done and every id in `blocked_by` satisfies the predicate; hence an
open task without blockers is ready, an open task whose sole blocker is not
done is not, and once that blocker is done the same task (its own status
field untouched) is ready. -/
theorem c5_isReady_characterization :
    (∀ (s : Synapse) (p : Int → Bool),
        s.isReady p = true ↔
          (s.status ≠ Status.inProgress ∧ s.status ≠ Status.review ∧
            s.status ≠ Status.done ∧ ∀ b ∈ s.blockedBy, p b = true))
    ∧ (∀ p : Int → Bool, (newSynapse 1 "solo" 0).isReady p = true)
    ∧ bndTask.isReady (bndStore Status.open_).isDone = false
    ∧ bndTask.isReady (bndStore Status.done).isDone = true
    ∧ bndTask.status = Status.open_ := by
  refine ⟨isReady_eq_true_iff, ?_, by decide, by decide, rfl⟩
  intro p
  simp [newSynapse, Synapse.isReady]

/-- Claim C4: `Claim` fails without mutation exactly when the status is done
or another agent holds an active claim; in every other case it succeeds and
records the claim. -/
theorem c4_claim_characterization (s : Synapse) (a : String) (d now : Int) :
    (s.status = Status.done → s.claim a d now = (false, s))
    ∧ (∀ t, s.claimedAt = some t → s.claimedBy ≠ "" → s.claimedBy ≠ a →
        now - t < d → s.claim a d now = (false, s))
    ∧ (s.status ≠ Status.done →
        (s.claimedBy = "" ∨ s.claimedBy = a ∨ s.claimedAt = none ∨
          ∀ t, s.claimedAt = some t → d ≤ now - t) →
        s.claim a d now =
          (true, { s with claimedBy := a, claimedAt := some now
                          status := Status.inProgress, updatedAt := now })) := by
  refine ⟨?_, ?_, ?_⟩
  · intro h
    simp [Synapse.claim, h]
  · intro t ht hne hna hlt
    by_cases hs : s.status = Status.done
    · simp [Synapse.claim, hs]
    · have hact : s.activeForeignClaim a d now = true := by
        simp [Synapse.activeForeignClaim, ht, hne, hna, hlt]
      simp [Synapse.claim, hs, hact]
  · intro hs hcond
    have hact : s.activeForeignClaim a d now = false := by
      rcases hcond with h | h | h | h
      · simp [Synapse.activeForeignClaim, h]
      · simp [Synapse.activeForeignClaim, h]
      · simp [Synapse.activeForeignClaim, h]
      · cases hat : s.claimedAt with
        | none => simp [Synapse.activeForeignClaim, hat]
        | some t =>
          have : ¬ now - t < d := not_lt.mpr (h t hat)
          simp [Synapse.activeForeignClaim, hat, this]
    simp [Synapse.claim, hs, hact]

/-- Claim C4 witness: concrete instantiations discharging each hypothesis —
an unclaimed open task is claimed successfully; a done task rejects a claim;
an active claim by a different agent rejects a claim. -/
theorem c4_claim_characterization_witness :
    ((newSynapse 1 "t" 0).claim "agentA" 30 10 =
      (true, { newSynapse 1 "t" 0 with claimedBy := "agentA", claimedAt := some 10
                                       status := Status.inProgress, updatedAt := 10 }))
    ∧ (({ newSynapse 1 "t" 0 with status := Status.done }).claim "agentA" 30 10 =
        (false, { newSynapse 1 "t" 0 with status := Status.done }))
    ∧ (({ newSynapse 1 "t" 0 with claimedBy := "agentB", claimedAt := some 5
                                  status := Status.inProgress }).claim "agentA" 30 10 =
        (false, { newSynapse 1 "t" 0 with claimedBy := "agentB", claimedAt := some 5
                                          status := Status.inProgress })) :=
  ⟨(c4_claim_characterization (newSynapse 1 "t" 0) "agentA" 30 10).2.2 (by decide)
      (Or.inl rfl),
   (c4_claim_characterization { newSynapse 1 "t" 0 with status := Status.done }
      "agentA" 30 10).1 rfl,
   (c4_claim_characterization
      { newSynapse 1 "t" 0 with claimedBy := "agentB", claimedAt := some 5
                                status := Status.inProgress }
      "agentA" 30 10).2.1 5 rfl (by decide) (by decide) (by decide)⟩

/-- Helper: `removeFirst` finds nothing when the id is absent. -/
theorem removeFirst_eq_none {l : List Int} {b : Int} (h : b ∉ l) :
    removeFirst l b = none := by
  induction l with
  | nil => rfl
  | cons x xs ih =>
    have hx : ¬ x = b := by
      intro hxb; exact h (hxb ▸ List.mem_cons_self x xs)
    have hxs : b ∉ xs := fun hm => h (List.mem_cons_of_mem x hm)
    simp [removeFirst, hx, ih hxs]

/-- Helper: `removeFirst` removes exactly the first occurrence, which is what
`List.erase` computes. -/
theorem removeFirst_eq_erase {l : List Int} {b : Int} (h : b ∈ l) :
    removeFirst l b = some (l.erase b) := by
  induction l with
  | nil => cases h
  | cons x xs ih =>
    by_cases hx : x = b
    · subst hx
      simp [removeFirst, List.erase_cons_head]
    · have hxs : b ∈ xs := by
        rcases List.mem_cons.mp h with h1 | h1
        · exact absurd h1.symm hx
        · exact h1
      rw [List.erase_cons_tail]
      · simp [removeFirst, hx, ih hxs]
      · simp [hx]

/-- Claim C9: `AddBlocker` and `RemoveBlocker` are idempotent set mutations —
a duplicate add and an absent remove leave the task entirely unchanged
(`updated_at` included), while an actual insertion appends the id and stamps
`updated_at`, and an actual removal erases the first occurrence and stamps
`updated_at`, no other field changing in any case. -/
theorem c9_blocker_mutations (s : Synapse) (b now : Int) :
    (b ∈ s.blockedBy → s.addBlocker b now = s)
    ∧ (b ∉ s.blockedBy →
        s.addBlocker b now =
          { s with blockedBy := s.blockedBy ++ [b], updatedAt := now })
    ∧ (b ∉ s.blockedBy → s.removeBlocker b now = s)
    ∧ (b ∈ s.blockedBy →
        s.removeBlocker b now =
          { s with blockedBy := s.blockedBy.erase b, updatedAt := now }) := by
  refine ⟨?_, ?_, ?_, ?_⟩
  · intro h
    simp [Synapse.addBlocker, h]
  · intro h
    simp [Synapse.addBlocker, h]
  · intro h
    simp [Synapse.removeBlocker, removeFirst_eq_none h]
  · intro h
    simp [Synapse.removeBlocker, removeFirst_eq_erase h]

/-- Claim C9 witness: on the task with `blocked_by = [1]`, a duplicate
`AddBlocker 1` and an absent `RemoveBlocker 2` are complete no-ops, while an
actual `AddBlocker 2` and an actual `RemoveBlocker 1` mutate the set and stamp
`updated_at`. -/
theorem c9_blocker_mutations_witness :
    (({ newSynapse 7 "w" 0 with blockedBy := [1] }).addBlocker 1 99 =
      { newSynapse 7 "w" 0 with blockedBy := [1] })
    ∧ (({ newSynapse 7 "w" 0 with blockedBy := [1] }).removeBlocker 2 99 =
        { newSynapse 7 "w" 0 with blockedBy := [1] })
    ∧ (({ newSynapse 7 "w" 0 with blockedBy := [1] }).addBlocker 2 99 =
        { newSynapse 7 "w" 0 with blockedBy := [1, 2], updatedAt := 99 })
    ∧ (({ newSynapse 7 "w" 0 with blockedBy := [1] }).removeBlocker 1 99 =
        { newSynapse 7 "w" 0 with blockedBy := [], updatedAt := 99 }) :=
  ⟨(c9_blocker_mutations { newSynapse 7 "w" 0 with blockedBy := [1] } 1 99).1
      (by decide),
   (c9_blocker_mutations { newSynapse 7 "w" 0 with blockedBy := [1] } 2 99).2.2.1
      (by decide),
   (c9_blocker_mutations { newSynapse 7 "w" 0 with blockedBy := [1] } 2 99).2.1
      (by decide),
   (c9_blocker_mutations { newSynapse 7 "w" 0 with blockedBy := [1] } 1 99).2.2.2
      (by decide)⟩

/-- Operations of the task entity exercised by the claimed-fields invariant. -/
inductive EntityOp where
  | claimOp (agent : String) (timeout now : Int)
  | releaseOp (now : Int)
  | markInProgressOp (now : Int)
  | markDoneOp (now : Int)
  | markDoneByOp (agent : String) (now : Int)
  | markBlockedOp (now : Int)
  | addBlockerOp (b now : Int)
  | removeBlockerOp (b now : Int)
  | addNoteOp (note : String) (now : Int)
deriving DecidableEq

/-- Application of one entity operation (the boolean result of `Claim` is
discarded; the state after the call is what matters). -/
def applyOp (s : Synapse) : EntityOp → Synapse
  | .claimOp a d n => (s.claim a d n).2
  | .releaseOp n => s.releaseClaim n
  | .markInProgressOp n => s.markInProgress n
  | .markDoneOp n => s.markDone n
  | .markDoneByOp a n => s.markDoneBy a n
  | .markBlockedOp n => s.markBlocked n
  | .addBlockerOp b n => s.addBlocker b n
  | .removeBlockerOp b n => s.removeBlocker b n
  | .addNoteOp note n => s.addNote note n

/-- Side condition of claim C10: `Claim` is only ever called with a non-empty
agent id. -/
def goodOp : EntityOp → Prop
  | .claimOp a _ _ => a ≠ ""
  | _ => True

/-- Data-model invariant: `claimed_by` non-empty iff `claimed_at` non-nil. -/
def claimFieldsInv (s : Synapse) : Prop :=
  s.claimedBy ≠ "" ↔ s.claimedAt ≠ none

/-- Helper: each entity operation preserves the claimed-fields invariant. -/
theorem claimFieldsInv_step {s : Synapse} {op : EntityOp}
    (hs : claimFieldsInv s) (hop : goodOp op) : claimFieldsInv (applyOp s op) := by
  cases op with
  | claimOp a d n =>
    simp only [applyOp, Synapse.claim]
    split
    · exact hs
    · split
      · exact hs
      · simp only [claimFieldsInv]
        constructor
        · intro _; simp
        · intro _; exact hop
  | releaseOp n =>
    simp [applyOp, Synapse.releaseClaim, claimFieldsInv]
  | markInProgressOp n => exact hs
  | markDoneOp n => exact hs
  | markDoneByOp a n => exact hs
  | markBlockedOp n => exact hs
  | addBlockerOp b n =>
    simp only [applyOp, Synapse.addBlocker]
    split
    · exact hs
    · exact hs
  | removeBlockerOp b n =>
    simp only [applyOp, Synapse.removeBlocker]
    split
    · exact hs
    · exact hs
  | addNoteOp note n => exact hs

/-- Helper: the invariant survives any fold of good operations. -/
theorem claimFieldsInv_foldl :
    ∀ (ops : List EntityOp) (s : Synapse), claimFieldsInv s →
      (∀ op ∈ ops, goodOp op) → claimFieldsInv (ops.foldl applyOp s) := by
  intro ops
  induction ops with
  | nil => intro s hs _; exact hs
  | cons op rest ih =>
    intro s hs hops
    exact ih (applyOp s op)
      (claimFieldsInv_step hs (hops op (List.mem_cons_self op rest)))
      (fun o ho => hops o (List.mem_cons_of_mem op ho))

/-- Claim C10: starting from `NewSynapse`, any sequence of entity operations
whose `Claim` calls all carry a non-empty agent id keeps `claimed_by`
non-empty iff `claimed_at` non-nil.  Instantiating the operation list at every
prefix gives the invariant after every single operation. -/
theorem c10_claim_fields_invariant (id : Int) (title : String) (t0 : Int)
    (ops : List EntityOp) (hops : ∀ op ∈ ops, goodOp op) :
    claimFieldsInv (ops.foldl applyOp (newSynapse id title t0)) :=
  claimFieldsInv_foldl ops (newSynapse id title t0) (by simp [claimFieldsInv, newSynapse])
    hops

/-- Claim C10 witness: the invariant after a concrete claim / release / claim
/ complete sequence. -/
theorem c10_claim_fields_invariant_witness :
    claimFieldsInv
      ([EntityOp.claimOp "agentA" 30 10, EntityOp.releaseOp 11,
        EntityOp.claimOp "agentB" 30 12, EntityOp.markDoneByOp "agentB" 13,
        EntityOp.addNoteOp "done" 14].foldl applyOp (newSynapse 1 "t" 0)) :=
  c10_claim_fields_invariant 1 "t" 0 _ (by
    intro op hop
    fin_cases hop <;> simp [goodOp])

/-- Helper: after storing `syn`, looking its id up returns it, for any prior
map contents. -/
theorem mapFind_mapInsert (m : List Synapse) (syn : Synapse) :
    mapFind (mapInsert m syn) syn.id = some syn := by
  by_cases hm : m.any (fun t => t.id = syn.id)
  · simp only [mapInsert, if_pos hm]
    induction m with
    | nil => simp at hm
    | cons x xs ih =>
      by_cases hx : x.id = syn.id
      · simp [mapFind, List.find?_cons, hx]
      · have hxs : xs.any (fun t => t.id = syn.id) := by
          simp only [List.any_cons, Bool.or_eq_true, decide_eq_true_eq] at hm
          rcases hm with h | h
          · exact absurd h hx
          · exact h
        simpa [mapFind, List.find?_cons, hx] using ih hxs
  · simp only [mapInsert, if_neg hm]
    have hnone : m.find? (fun t => decide (t.id = syn.id)) = none := by
      rw [List.find?_eq_none]
      intro t ht
      simp only [List.any_eq_true] at hm
      push_neg at hm
      simpa using hm t ht
    simp [mapFind, List.find?_append, hnone]

/-- Claim C2 counterexample: on the fresh store, `Create("")` does not return
a `ValidationError` — it succeeds, inserts the task with the empty title, and
advances the next-id counter, so the in-memory map does change. -/
theorem c2_empty_title_counterexample :
    (JSONLStore.initial.create "" 0).2.synapses = [newSynapse 1 "" 0]
    ∧ (JSONLStore.initial.create "" 0).2.nextID = 2
    ∧ (JSONLStore.initial.create "" 0).2.synapses ≠ JSONLStore.initial.synapses := by
  exact ⟨rfl, rfl, by decide⟩

/-- Claim C2 amended: `JSONLStore.Create` performs no title validation at
all — with the empty title it behaves like any other call, returning the new
task (id = nextID, empty title) with a nil error, storing it in the map and
advancing the counter; the empty-title rejection lives in the RPC layer, not
in the store. -/
theorem c2_empty_title_amended (st : JSONLStore) (now : Int) :
    ((st.create "" now).1.title = "" ∧ (st.create "" now).1.id = st.nextID)
    ∧ mapFind (st.create "" now).2.synapses st.nextID = some (newSynapse st.nextID "" now)
    ∧ (st.create "" now).2.nextID = st.nextID + 1 :=
  ⟨⟨rfl, rfl⟩, mapFind_mapInsert st.synapses (newSynapse st.nextID "" now),
   rfl⟩

/-- One call of a single store session: `Create` (with its clock instant) or
`Delete`. -/
inductive SessionOp where
  | createOp (title : String) (now : Int)
  | deleteOp (id : Int)
deriving DecidableEq

/-- Run of a session against the store, collecting the ids assigned by the
`Create` calls in order.  A failed `Delete` (unknown id) returns its error
and leaves the store unchanged, so the session continues from the same
state. -/
def runSession (st : JSONLStore) : List SessionOp → JSONLStore × List Int
  | [] => (st, [])
  | SessionOp.createOp title now :: rest =>
    let res := st.create title now
    let tail := runSession res.2 rest
    (tail.1, res.1.id :: tail.2)
  | SessionOp.deleteOp id :: rest =>
    match st.delete id with
    | Except.ok st1 => runSession st1 rest
    | Except.error _ => runSession st rest

/-- Helper: ids assigned during a session form a strictly increasing sequence
and all of them are at least the starting next-id counter. -/
theorem runSession_strict_mono :
    ∀ (ops : List SessionOp) (st : JSONLStore),
      List.Chain' (· < ·) (runSession st ops).2
      ∧ ∀ i ∈ (runSession st ops).2, st.nextID ≤ i := by
  intro ops
  induction ops with
  | nil => intro st; simp [runSession]
  | cons op rest ih =>
    intro st
    cases op with
    | createOp title now =>
      have hid : (st.create title now).1.id = st.nextID := rfl
      have hnext : (st.create title now).2.nextID = st.nextID + 1 := rfl
      obtain ⟨hchain, hbound⟩ := ih (st.create title now).2
      constructor
      · simp only [runSession]
        rw [List.chain'_cons']
        refine ⟨?_, hchain⟩
        intro y hy
        have hymem : y ∈ (runSession (st.create title now).2 rest).2 :=
          List.mem_of_mem_head? hy
        have := hbound y hymem
        rw [hnext] at this
        rw [hid]
        omega
      · intro i hi
        simp only [runSession, List.mem_cons] at hi
        rcases hi with hi | hi
        · rw [hi, hid]
        · have := hbound i hi
          rw [hnext] at this
          omega
    | deleteOp id =>
      by_cases hd : st.synapses.any (fun t => t.id = id)
      · have hstep : runSession st (SessionOp.deleteOp id :: rest) =
            runSession { st with synapses := st.synapses.filter (fun t => ¬ t.id = id) }
              rest := by
          simp [runSession, JSONLStore.delete, hd]
        obtain ⟨hchain, hbound⟩ :=
          ih { st with synapses := st.synapses.filter (fun t => ¬ t.id = id) }
        rw [hstep]
        exact ⟨hchain, fun i hi => hbound i hi⟩
      · have hstep : runSession st (SessionOp.deleteOp id :: rest) =
            runSession st rest := by
          simp [runSession, JSONLStore.delete, hd]
        obtain ⟨hchain, hbound⟩ := ih st
        rw [hstep]
        exact ⟨hchain, hbound⟩

/-- Claim C7: within one session the ids assigned by `Create` are strictly
increasing and never reassigned even after a `Delete` (the sequence of
assigned ids has no duplicate); concretely, create / delete / create on a
fresh store assigns 1 then 2, not 1 again. -/
theorem c7_monotonic_session_ids (st : JSONLStore) (ops : List SessionOp) :
    List.Chain' (· < ·) (runSession st ops).2
    ∧ (runSession st ops).2.Nodup
    ∧ (runSession JSONLStore.initial
        [SessionOp.createOp "first" 0, SessionOp.deleteOp 1,
          SessionOp.createOp "second" 1]).2 = [1, 2] := by
  obtain ⟨hchain, _⟩ := runSession_strict_mono ops st
  refine ⟨hchain, ?_, by decide⟩
  have hpw : (runSession st ops).2.Pairwise (· < ·) :=
    List.chain'_iff_pairwise.mp hchain
  exact List.Pairwise.imp (fun {a b} h => ne_of_lt h) hpw

/-- Reconstruction of the store state from the well-formed prefix of a file:
the decodable lines folded in order into a fresh store, exactly what the
`Load` loop has done when it aborts. -/
def cleanFold (acc : JSONLStore) (pre : List FileLine) : JSONLStore :=
  pre.foldl
    (fun a fl =>
      match fl with
      | FileLine.good l => loadLine a l
      | _ => a)
    acc

/-- Helper: scanning a malformed-free prefix followed by a malformed line
folds the prefix and stops with the malformed line's number. -/
theorem loadFileGo_first_malformed :
    ∀ (pre : List FileLine), (∀ l ∈ pre, l ≠ FileLine.malformed) →
      ∀ (acc : JSONLStore) (n : Nat) (post : List FileLine),
        loadFileGo acc (pre ++ FileLine.malformed :: post) n =
          (cleanFold acc pre, some (n + pre.length)) := by
  intro pre
  induction pre with
  | nil =>
    intro _ acc n post
    simp [loadFileGo, cleanFold]
  | cons fl rest ih =>
    intro hpre acc n post
    have hrest : ∀ l ∈ rest, l ≠ FileLine.malformed :=
      fun l hl => hpre l (List.mem_cons_of_mem fl hl)
    cases fl with
    | blank =>
      rw [List.cons_append]
      show loadFileGo acc (rest ++ FileLine.malformed :: post) (n + 1) = _
      rw [ih hrest acc (n + 1) post]
      simp only [cleanFold, List.foldl_cons, List.length_cons]
      refine congrArg _ ?_
      refine congrArg _ ?_
      omega
    | good l =>
      rw [List.cons_append]
      show loadFileGo (loadLine acc l) (rest ++ FileLine.malformed :: post) (n + 1) = _
      rw [ih hrest (loadLine acc l) (n + 1) post]
      simp only [cleanFold, List.foldl_cons, List.length_cons]
      refine congrArg _ ?_
      refine congrArg _ ?_
      omega
    | malformed =>
      exact absurd rfl (hpre FileLine.malformed (List.mem_cons_self _ _))

/-- Claim C8: when the first malformed line of the durable file is line `N`
(here `pre.length + 1`, `pre` being the malformed-free prefix), `Load`
returns a parse error naming line `N` and the in-memory map afterwards holds
exactly the tasks decoded from the lines before `N` — the result does not
depend on the store state before the call, so the previous contents are
discarded, not restored. -/
theorem c8_partial_load (st : JSONLStore) (pre post : List FileLine)
    (hpre : ∀ l ∈ pre, l ≠ FileLine.malformed) :
    st.loadFile (pre ++ FileLine.malformed :: post) =
      (cleanFold JSONLStore.initial pre, some (pre.length + 1)) := by
  rw [JSONLStore.loadFile, loadFileGo_first_malformed pre hpre JSONLStore.initial 1 post]
  refine congrArg _ ?_
  refine congrArg _ ?_
  omega

/-- Claim C8 witness: a store already holding a task, loading a file whose
line 1 decodes to task 5, line 2 is blank and line 3 is malformed, ends up
holding exactly task 5 (the prior task is gone) with the error naming
line 3. -/
theorem c8_partial_load_witness :
    (JSONLStore.mk [newSynapse 9 "stale" 0] 10).loadFile
        ([FileLine.good (encodeLine (newSynapse 5 "t5" 0)), FileLine.blank] ++
          FileLine.malformed :: [FileLine.blank]) =
      ({ synapses := [newSynapse 5 "t5" 0], nextID := 6 }, some 3) := by
  rw [c8_partial_load (JSONLStore.mk [newSynapse 9 "stale" 0] 10)
    [FileLine.good (encodeLine (newSynapse 5 "t5" 0)), FileLine.blank] [FileLine.blank]
    (by intro l hl; fin_cases hl <;> simp)]
  decide

/-- Blocker task for the cascade check. -/
def cscBlocker : Synapse :=
  { id := 1, title := "blocker", status := Status.done }

/-- Dependent task for the cascade check: blocked by task 1. -/
def cscDependent : Synapse :=
  { id := 2, title := "dependent", status := Status.open_, blockedBy := [1] }

/-- Claim C3, evaluated at the failing input: rebuild the cache from tasks 1
and 2 (2 blocked by 1), then `Delete(1)`.  The delete succeeds and removes the
task's row, but the `blockers` table still holds the row `(2, 1)` with
`blocker_id = 1`: the `ON DELETE CASCADE` clauses are inert because the
connection never enables the `foreign_keys` pragma, so no cache-side
dependency edge is removed. -/
theorem c3_delete_does_not_cascade :
    (SQLiteCache.rebuild [cscBlocker, cscDependent]).bind
        (fun db => db.deleteSyn 1) =
      Except.ok { synapses := [synToRow cscDependent]
                  blockers := [{ synapseID := 2, blockerID := 1 }] }
    ∧ ({ synapseID := 2, blockerID := 1 } : BlockerRow).blockerID = 1 := by
  exact ⟨rfl, rfl⟩

/-- Edge rows a successful `Rebuild` writes for a task collection. -/
def edgesOf (tasks : List Synapse) : List BlockerRow :=
  tasks.flatMap
    (fun t => t.blockedBy.map (fun b => { synapseID := t.id, blockerID := b }))

/-- Helper: a successful edge-insert loop appends exactly the task's edges. -/
theorem insertEdges_ok :
    ∀ (bs : List Int) (db : CacheDB) (sid : Int) (db2 : CacheDB),
      insertEdges db sid bs = Except.ok db2 →
      db2 = { db with
              blockers := db.blockers ++
                bs.map (fun b => { synapseID := sid, blockerID := b }) } := by
  intro bs
  induction bs with
  | nil =>
    intro db sid db2 h
    simp only [insertEdges, Except.ok.injEq] at h
    simp [← h]
  | cons b rest ih =>
    intro db sid db2 h
    simp only [insertEdges] at h
    split at h
    · simp at h
    · have h2 := ih { db with blockers := db.blockers ++ [{ synapseID := sid, blockerID := b }] }
        sid db2 h
      rw [h2]
      simp

/-- Helper: a successful synapse-row insert appends exactly the task's row. -/
theorem insertSynRow_ok (db : CacheDB) (s : Synapse) (db2 : CacheDB)
    (h : insertSynRow db s = Except.ok db2) :
    db2 = { db with synapses := db.synapses ++ [synToRow s] } := by
  simp only [insertSynRow] at h
  split at h
  · simp at h
  · simp only [Except.ok.injEq] at h
    exact h.symm

/-- Helper: a successful task insert appends the row and the edges. -/
theorem insertTask_ok (db : CacheDB) (s : Synapse) (db2 : CacheDB)
    (h : insertTask db s = Except.ok db2) :
    db2 = { synapses := db.synapses ++ [synToRow s]
            blockers := db.blockers ++
              s.blockedBy.map (fun b => { synapseID := s.id, blockerID := b }) } := by
  cases hrow : insertSynRow db s with
  | error e =>
    simp only [insertTask, hrow] at h
    exact absurd h (by simp)
  | ok db1 =>
    simp only [insertTask, hrow] at h
    have h1 := insertSynRow_ok db s db1 hrow
    have h2 := insertEdges_ok s.blockedBy db1 s.id db2 h
    subst h1
    rw [h2]

/-- Helper: a successful rebuild loop appends all rows and all edges. -/
theorem rebuildFrom_ok :
    ∀ (tasks : List Synapse) (db db2 : CacheDB),
      rebuildFrom db tasks = Except.ok db2 →
      db2 = { synapses := db.synapses ++ tasks.map synToRow
              blockers := db.blockers ++ edgesOf tasks } := by
  intro tasks
  induction tasks with
  | nil =>
    intro db db2 h
    simp only [rebuildFrom, Except.ok.injEq] at h
    simp [← h, edgesOf]
  | cons t rest ih =>
    intro db db2 h
    cases htask : insertTask db t with
    | error e =>
      simp only [rebuildFrom, htask] at h
      exact absurd h (by simp)
    | ok db1 =>
      simp only [rebuildFrom, htask] at h
      have h1 := insertTask_ok db t db1 htask
      have h2 := ih db1 db2 h
      subst h1
      rw [h2]
      simp [edgesOf, List.flatMap_cons]

/-- Helper: the database a successful `Rebuild` leaves behind. -/
theorem rebuild_ok (tasks : List Synapse) (db : CacheDB)
    (h : SQLiteCache.rebuild tasks = Except.ok db) :
    db = { synapses := tasks.map synToRow, blockers := edgesOf tasks } := by
  have h2 := rebuildFrom_ok tasks { synapses := [], blockers := [] } db h
  simpa using h2

/-- Helper: the stored status TEXT is 'open' or 'blocked' exactly when the
status is neither in-progress nor review nor done. -/
theorem toGoString_open_or_blocked (st : Status) :
    (st.toGoString = "open" ∨ st.toGoString = "blocked") ↔
      ¬ (st = Status.inProgress ∨ st = Status.review ∨ st = Status.done) := by
  cases st <;> decide

/-- Helper: the stored status TEXT is 'done' exactly for the done status. -/
theorem toGoString_done (st : Status) :
    st.toGoString = "done" ↔ st = Status.done := by
  cases st <;> decide

/-- Helper: with pairwise distinct ids, looking up a member's id finds that
member. -/
theorem mapFind_eq_some_of_mem :
    ∀ (tasks : List Synapse), (tasks.map (fun t => t.id)).Nodup →
      ∀ t ∈ tasks, mapFind tasks t.id = some t := by
  intro tasks
  induction tasks with
  | nil => intro _ t ht; cases ht
  | cons x xs ih =>
    intro hnd t ht
    rcases List.mem_cons.mp ht with h | h
    · subst h
      simp [mapFind, List.find?_cons_of_pos]
    · have hxm : t.id ∈ xs.map (fun u => u.id) := List.mem_map_of_mem _ h
      simp only [List.map_cons, List.nodup_cons] at hnd
      have hne : ¬ x.id = t.id := fun he => hnd.1 (he ▸ hxm)
      rw [mapFind, List.find?_cons_of_neg _ (by simpa using hne)]
      exact ih hnd.2 t h

/-- Helper: with pairwise distinct ids, equal ids mean equal tasks. -/
theorem eq_of_mem_of_id_eq (tasks : List Synapse)
    (hids : (tasks.map (fun t => t.id)).Nodup)
    {u t : Synapse} (hu : u ∈ tasks) (ht : t ∈ tasks) (he : u.id = t.id) :
    u = t := by
  have h1 := mapFind_eq_some_of_mem tasks hids u hu
  have h2 := mapFind_eq_some_of_mem tasks hids t ht
  rw [he, h2] at h1
  exact Option.some.inj h1.symm

/-- Helper: over the database a successful `Rebuild` leaves, the SQL readiness
of a task's row coincides with the store-level `IsReady`, provided ids are
pairwise distinct and every blocker id refers to a task of the collection. -/
theorem rowReady_eq_isReady (tasks : List Synapse)
    (hids : (tasks.map (fun t => t.id)).Nodup)
    (hclosed : ∀ t ∈ tasks, ∀ b ∈ t.blockedBy, ∃ u ∈ tasks, u.id = b)
    (t : Synapse) (ht : t ∈ tasks) :
    (CacheDB.mk (tasks.map synToRow) (edgesOf tasks)).rowReady (synToRow t) =
      t.isReady (JSONLStore.mk tasks 1).isDone := by
  have hrowid : (synToRow t).id = t.id := rfl
  have hrowst : (synToRow t).status = t.status.toGoString := rfl
  rw [Bool.eq_iff_iff, isReady_eq_true_iff]
  have hblocked : ∀ b ∈ t.blockedBy,
      ((∃ r ∈ tasks.map synToRow, r.id = b ∧ ¬ r.status = "done") ↔
        ¬ (JSONLStore.mk tasks 1).isDone b = true) := by
    intro b hb
    constructor
    · rintro ⟨r, hrmem, hrid, hrst⟩
      obtain ⟨u, humem, rfl⟩ := List.mem_map.mp hrmem
      have huid : u.id = b := hrid
      have hust : ¬ u.status = Status.done := by
        intro hd
        exact hrst ((toGoString_done u.status).mpr hd)
      have hfind : mapFind tasks b = some u := by
        rw [← huid]
        exact mapFind_eq_some_of_mem tasks hids u humem
      simp [JSONLStore.isDone, hfind, hust]
    · intro hnd
      obtain ⟨u, humem, huid⟩ := hclosed t ht b hb
      have hfind : mapFind tasks b = some u := by
        rw [← huid]
        exact mapFind_eq_some_of_mem tasks hids u humem
      have hust : ¬ u.status = Status.done := by
        intro hd
        exact hnd (by simp [JSONLStore.isDone, hfind, hd])
      refine ⟨synToRow u, List.mem_map_of_mem _ humem, huid, ?_⟩
      intro hds
      exact hust ((toGoString_done u.status).mp hds)
  constructor
  · intro h
    simp only [CacheDB.rowReady, Bool.and_eq_true, Bool.not_eq_true',
      decide_eq_true_eq, hrowid, hrowst] at h
    obtain ⟨hst, hany⟩ := h
    rw [← Bool.not_eq_true, List.any_eq_true] at hany
    push_neg at hany
    have hstatus := (toGoString_open_or_blocked t.status).mp hst
    push_neg at hstatus
    refine ⟨hstatus.1, hstatus.2.1, hstatus.2.2, ?_⟩
    intro b hb
    by_contra hnb
    have hedge : (⟨t.id, b⟩ : BlockerRow) ∈ edgesOf tasks := by
      rw [edgesOf, List.mem_flatMap]
      exact ⟨t, ht, List.mem_map_of_mem _ hb⟩
    apply hany ⟨t.id, b⟩ hedge
    simp only [Bool.and_eq_true, decide_eq_true_eq, List.any_eq_true]
    refine ⟨trivial, ?_⟩
    obtain ⟨r, hrmem, hrid, hrst⟩ := (hblocked b hb).mpr (by simpa using hnb)
    exact ⟨r, hrmem, by simp [hrid, hrst]⟩
  · rintro ⟨h1, h2, h3, hall⟩
    simp only [CacheDB.rowReady, Bool.and_eq_true, Bool.not_eq_true',
      decide_eq_true_eq, hrowid, hrowst]
    constructor
    · exact (toGoString_open_or_blocked t.status).mpr (by tauto)
    · rw [← Bool.not_eq_true, List.any_eq_true]
      push_neg
      intro e hemem htrue
      simp only [Bool.and_eq_true, decide_eq_true_eq, List.any_eq_true] at htrue
      obtain ⟨hesid, r, hrmem, hrprop⟩ := htrue
      rw [edgesOf, List.mem_flatMap] at hemem
      obtain ⟨u, humem, hemem2⟩ := hemem
      obtain ⟨b, hbmem, rfl⟩ := List.mem_map.mp hemem2
      have hut : u = t := eq_of_mem_of_id_eq tasks hids humem ht hesid
      subst hut
      have : ¬ (JSONLStore.mk tasks 1).isDone b = true :=
        (hblocked b hbmem).mp ⟨r, hrmem, hrprop.1, hrprop.2⟩
      exact this (by simpa using hall b hbmem)

/-- Claim C1, as stated, is false; the amended claim: for a task collection
with pairwise distinct ids, valid statuses (the `Status` type carries exactly
the five valid values) and no dangling `blocked_by` reference, a successful
`Rebuild` makes `SQLiteCache.Ready()` return exactly the ids that
`JSONLStore.Ready()` returns on a store holding those tasks.  With a dangling
reference the two differ (see the counterexample): the store counts an absent
blocker as not done, while the cache query's inner join drops the edge. -/
theorem c1_ready_parity_amended (tasks : List Synapse) (db : CacheDB)
    (hids : (tasks.map (fun t => t.id)).Nodup)
    (hclosed : ∀ t ∈ tasks, ∀ b ∈ t.blockedBy, ∃ u ∈ tasks, u.id = b)
    (hreb : SQLiteCache.rebuild tasks = Except.ok db) :
    ∀ i, i ∈ db.readyIDs ↔ i ∈ (JSONLStore.mk tasks 1).readyIDs := by
  have hdb := rebuild_ok tasks db hreb
  subst hdb
  intro i
  simp only [CacheDB.readyIDs, JSONLStore.readyIDs, List.mem_map, List.mem_filter]
  constructor
  · rintro ⟨r, ⟨⟨t, htmem, rfl⟩, hready⟩, hid⟩
    refine ⟨t, ⟨htmem, ?_⟩, hid⟩
    rw [← rowReady_eq_isReady tasks hids hclosed t htmem]
    exact hready
  · rintro ⟨t, ⟨htmem, hready⟩, hid⟩
    refine ⟨synToRow t, ⟨⟨t, htmem, rfl⟩, ?_⟩, hid⟩
    rw [rowReady_eq_isReady tasks hids hclosed t htmem]
    exact hready

/-- Task with a dangling blocker reference: open, blocked by the absent id 2. -/
def dglTask : Synapse :=
  { id := 1, title := "waits", status := Status.open_, blockedBy := [2] }

/-- Claim C1 counterexample: on the singleton collection whose task has the
dangling blocker 2, `Rebuild` succeeds, the cache reports the task ready (the
inner join drops the dangling edge) while the store reports it not ready (an
absent blocker is not done) — the two id sets differ. -/
theorem c1_ready_parity_counterexample :
    (SQLiteCache.rebuild [dglTask]).map CacheDB.readyIDs = Except.ok [1]
    ∧ (JSONLStore.mk [dglTask] 2).readyIDs = [] := by
  exact ⟨rfl, rfl⟩

/-- Done blocker for the parity witness. -/
def parDone : Synapse :=
  { id := 1, title := "a", status := Status.done }

/-- Open dependent task for the parity witness, blocked by task 1. -/
def parWaiting : Synapse :=
  { id := 2, title := "b", status := Status.open_, blockedBy := [1] }

/-- Claim C1 witness: the amended parity theorem applied to the concrete
collection {1 done, 2 open blocked by 1}, at id 2, with every hypothesis
discharged by evaluation. -/
theorem c1_ready_parity_amended_witness :
    2 ∈ (CacheDB.mk [synToRow parDone, synToRow parWaiting]
          [{ synapseID := 2, blockerID := 1 }]).readyIDs ↔
      2 ∈ (JSONLStore.mk [parDone, parWaiting] 1).readyIDs :=
  c1_ready_parity_amended [parDone, parWaiting]
    (CacheDB.mk [synToRow parDone, synToRow parWaiting]
      [{ synapseID := 2, blockerID := 1 }])
    (by decide)
    (by decide)
    (by rfl) 2

/-- Helper: an `omitempty` string field decodes back to itself. -/
theorem omitString_getD (s : String) : (omitString s).getD "" = s := by
  unfold omitString
  split <;> simp_all

/-- Helper: an `omitempty` int field decodes back to itself. -/
theorem omitInt_getD (n : Int) : (omitInt n).getD 0 = n := by
  unfold omitInt
  split <;> simp_all

/-- Helper: an `omitempty` slice field decodes back to itself (the empty
slice is omitted and decodes to the zero value, which the model identifies
with the empty list). -/
theorem omitList_getD {α : Type} (l : List α) : (omitList l).getD [] = l := by
  unfold omitList
  split <;> simp_all

/-- Helper: one line of `Save` output decodes to the task it encoded. -/
theorem decode_encode (s : Synapse) : decodeLine (encodeLine s) = s := by
  cases s
  simp [encodeLine, decodeLine, omitString_getD, omitInt_getD, omitList_getD]

/-- Helper: a decoded line keeps the encoded id. -/
theorem decodeLine_id (l : Line) : (decodeLine l).id = l.id := rfl

/-- Helper: storing a fresh id appends. -/
theorem mapInsert_fresh {m : List Synapse} {syn : Synapse}
    (h : syn.id ∉ m.map (fun t => t.id)) : mapInsert m syn = m ++ [syn] := by
  have hany : ¬ (m.any (fun t => t.id = syn.id)) = true := by
    simp only [List.any_eq_true, decide_eq_true_eq]
    rintro ⟨t, htm, hte⟩
    exact h (hte ▸ List.mem_map_of_mem _ htm)
  simp [mapInsert, hany]

/-- Helper: the next-id watermark step of `Load` is a max. -/
theorem watermark_eq_max (i n : Int) : (if i ≥ n then i + 1 else n) = max n (i + 1) := by
  rcases le_or_lt n i with h | h
  · rw [if_pos h, max_eq_right (by omega)]
  · rw [if_neg (by omega), max_eq_left (by omega)]

/-- Helper: folding decodable lines with pairwise fresh ids appends their
decoded tasks and maxes the watermark. -/
theorem load_foldl :
    ∀ (lines : List Line) (acc : JSONLStore),
      ((acc.synapses.map (fun t => t.id)) ++ lines.map (fun l => l.id)).Nodup →
      lines.foldl loadLine acc =
        { synapses := acc.synapses ++ lines.map decodeLine
          nextID := lines.foldl (fun a l => max a (l.id + 1)) acc.nextID } := by
  intro lines
  induction lines with
  | nil =>
    intro acc _
    simp
  | cons l rest ih =>
    intro acc hnd
    have hfresh : l.id ∉ acc.synapses.map (fun t => t.id) := by
      rw [List.nodup_append] at hnd
      intro hmem
      exact hnd.2.2 hmem (by simp)
    have hstep : loadLine acc l =
        { synapses := acc.synapses ++ [decodeLine l]
          nextID := max acc.nextID (l.id + 1) } := by
      rw [loadLine]
      rw [mapInsert_fresh (by simpa [decodeLine_id] using hfresh)]
      rw [show (decodeLine l).id = l.id from rfl, watermark_eq_max]
    have hnd2 : (((acc.synapses ++ [decodeLine l]).map (fun t => t.id)) ++
        rest.map (fun r => r.id)).Nodup := by
      simp only [List.map_append, List.map_cons, List.map_nil] at hnd ⊢
      simpa [decodeLine_id, List.append_assoc] using hnd
    rw [List.foldl_cons, hstep, ih _ hnd2]
    simp

/-- Helper: folding the shifted max over ids starting one above the base
equals the plain max fold plus one. -/
theorem foldl_max_shift :
    ∀ (l : List Synapse) (b : Int),
      l.foldl (fun a s => max a (s.id + 1)) (b + 1) =
        (l.foldl (fun a s => max a s.id) b) + 1 := by
  intro l
  induction l with
  | nil => intro b; rfl
  | cons s rest ih =>
    intro b
    rw [List.foldl_cons, List.foldl_cons, max_add_add_right]
    exact ih _

/-- Helper: the max fold over ids is invariant under permutation. -/
theorem foldl_max_perm {l1 l2 : List Synapse} (p : l1.Perm l2) :
    ∀ a : Int, l1.foldl (fun x s => max x s.id) a = l2.foldl (fun x s => max x s.id) a := by
  induction p with
  | nil => intro a; rfl
  | cons x _ ih => intro a; rw [List.foldl_cons, List.foldl_cons, ih]
  | swap x y l => intro a; rw [List.foldl_cons, List.foldl_cons, List.foldl_cons,
      List.foldl_cons, sup_right_comm]
  | trans _ _ ih1 ih2 => intro a; rw [ih1, ih2]

/-- Helper: the max fold over ids either keeps the base (every id at most
the base) or lands on a member's id that bounds all the others. -/
theorem foldl_max_attains :
    ∀ (l : List Synapse) (a : Int),
      (l.foldl (fun x s => max x s.id) a = a ∧ ∀ u ∈ l, u.id ≤ a) ∨
        (∃ t ∈ l, l.foldl (fun x s => max x s.id) a = t.id ∧ a ≤ t.id ∧
          ∀ u ∈ l, u.id ≤ t.id) := by
  intro l
  induction l with
  | nil => intro a; left; exact ⟨rfl, by simp⟩
  | cons s rest ih =>
    intro a
    rw [List.foldl_cons]
    rcases ih (max a s.id) with ⟨heq, hbound⟩ | ⟨t, htm, heq, hge, hbound⟩
    · rcases max_choice a s.id with hm | hm
      · left
        refine ⟨by rw [heq, hm], ?_⟩
        intro u hu
        rcases List.mem_cons.mp hu with h | h
        · subst h
          have := le_max_right a u.id
          omega
        · have := hbound u h
          omega
      · right
        refine ⟨s, List.mem_cons_self s rest, by rw [heq, hm], ?_, ?_⟩
        · have := le_max_left a s.id
          omega
        · intro u hu
          rcases List.mem_cons.mp hu with h | h
          · subst h; exact le_refl _
          · have := hbound u h
            omega
    · right
      refine ⟨t, List.mem_cons_of_mem s htm, heq, ?_, ?_⟩
      · have := le_max_left a s.id
        omega
      · intro u hu
        rcases List.mem_cons.mp hu with h | h
        · subst h
          have := le_max_right a u.id
          omega
        · exact hbound u h

/-- Claim C6: `Save` followed by `Load` reproduces an equivalent map — the
loaded task list is a permutation of the original (same ids, equal field
values task by task; in particular equal `blocked_by` sets, the model
identifying the JSON omission of an empty slice with the empty list) — and
the next-id watermark becomes max(id)+1, or 1 when the store was empty. -/
theorem c6_save_load_round_trip (st : JSONLStore)
    (hids : (st.synapses.map (fun t => t.id)).Nodup)
    (hpos : ∀ t ∈ st.synapses, 1 ≤ t.id) :
    (st.load st.save).synapses.Perm st.synapses
    ∧ (st.synapses = [] → (st.load st.save).nextID = 1)
    ∧ (st.synapses ≠ [] →
        ∃ t ∈ st.synapses, (st.load st.save).nextID = t.id + 1 ∧
          ∀ u ∈ st.synapses, u.id ≤ t.id) := by
  have hperm : (st.synapses.insertionSort (fun a b => a.id ≤ b.id)).Perm st.synapses :=
    List.perm_insertionSort _ _
  have hsortids : ((st.synapses.insertionSort (fun a b => a.id ≤ b.id)).map
      (fun t => t.id)).Nodup :=
    ((hperm.map (fun t => t.id)).nodup_iff).mpr hids
  have hlineids : (st.save.map (fun l => l.id)) =
      (st.synapses.insertionSort (fun a b => a.id ≤ b.id)).map (fun t => t.id) := by
    rw [JSONLStore.save, List.map_map]
    rfl
  have hfold := load_foldl st.save JSONLStore.initial
    (by
      rw [hlineids]
      simpa [JSONLStore.initial] using hsortids)
  have hloaded : st.load st.save =
      { synapses := st.save.map decodeLine
        nextID := st.save.foldl (fun a l => max a (l.id + 1)) 1 } := by
    rw [JSONLStore.load, hfold]
    simp [JSONLStore.initial]
  have hdec : st.save.map decodeLine =
      st.synapses.insertionSort (fun a b => a.id ≤ b.id) := by
    rw [JSONLStore.save, List.map_map]
    have : (decodeLine ∘ encodeLine) = id := by
      funext s
      exact decode_encode s
    rw [this, List.map_id]
  have hfoldid : st.save.foldl (fun a l => max a (l.id + 1)) 1 =
      (st.synapses.insertionSort (fun a b => a.id ≤ b.id)).foldl
        (fun a s => max a (s.id + 1)) 1 := by
    rw [JSONLStore.save, List.foldl_map]
    rfl
  have hnext : (st.load st.save).nextID =
      (st.synapses.foldl (fun x s => max x s.id) 0) + 1 := by
    rw [hloaded]
    show st.save.foldl (fun a l => max a (l.id + 1)) 1 = _
    rw [hfoldid]
    have h2 := foldl_max_shift (st.synapses.insertionSort (fun a b => a.id ≤ b.id)) 0
    norm_num at h2
    rw [h2, foldl_max_perm hperm]
  refine ⟨?_, ?_, ?_⟩
  · rw [hloaded]
    show (st.save.map decodeLine).Perm st.synapses
    rw [hdec]
    exact hperm
  · intro hempty
    rw [hnext, hempty]
    rfl
  · intro hne
    rcases foldl_max_attains st.synapses 0 with ⟨_, hbound⟩ | ⟨t, htm, heq, _, hbound⟩
    · obtain ⟨t, htm⟩ := List.exists_mem_of_ne_nil st.synapses hne
      have := hpos t htm
      have := hbound t htm
      omega
    · exact ⟨t, htm, by rw [hnext, heq], hbound⟩

/-- Concrete two-task store (unsorted, with a dependency) for the round-trip
witness. -/
def rtStore : JSONLStore :=
  { synapses :=
      [{ id := 2, title := "later", status := Status.blocked, blockedBy := [1]
         priority := 5 },
       { id := 1, title := "early", status := Status.done, completedBy := "agentA" }]
    nextID := 7 }

/-- Claim C6 witness: the round-trip theorem applied to the concrete store —
the reloaded list is a permutation of the original and the watermark is the
maximal id plus one. -/
theorem c6_save_load_round_trip_witness :
    (rtStore.load rtStore.save).synapses.Perm rtStore.synapses
    ∧ ∃ t ∈ rtStore.synapses, (rtStore.load rtStore.save).nextID = t.id + 1 ∧
        ∀ u ∈ rtStore.synapses, u.id ≤ t.id := by
  have h := c6_save_load_round_trip rtStore (by decide) (by decide)
  exact ⟨h.1, h.2.2 (by decide)⟩
